import Mathlib

/-!
Shallow embedding of the Connect6 engine (Go sources: `board/board.go`,
`mcts/mcts.go` first revision, and the transposition-table MCTS revision
with the `movesInTurn` turn-phase counter).

Modelling conventions:
* A Go `Board` (`[19][19]rune`) is modelled as a total function
  `Int → Int → Char`; all reads go through `getCell`, which returns the
  empty cell outside the 19×19 range (the Go sources only read cells after
  an explicit range check, so that branch mirrors no real read), and all
  writes go through `setCell`, which ignores out-of-range writes (an
  out-of-range write in Go is a runtime panic; no claim depends on it).
* Go `int` is `Int`; the sentinel position `(-1,-1)` is representable.
* `EvaluateBoard` returns `float64(playerScore - oppScore)` where both
  scores are `int`; the conversion is exact, so the model returns `Int`.
* Rollout results are the floats `1.0`/`0.0` and `backup` only forms
  `1.0 - result`, so node statistics stay in `{0,1}`-valued sums; visit
  counts and accumulated wins are modelled as `Nat`/`Int`, which is exact
  for every value that occurs.
* Go `map[Position]bool` iteration order is unspecified; `mapToSlice` is
  modelled as insertion-order traversal with duplicates removed
  (`List.dedup`).  Claims settled below do not depend on a particular
  order unless noted.
-/

def boardSize : Int := 19

def winLength : Nat := 6

def emptyCell : Char := '\x00'

structure Position where
  row : Int
  col : Int
deriving DecidableEq, Repr

/-- Go `Move` is `[2]Position`; the second slot `(-1,-1)` marks a
single-stone (opening) move. -/
abbrev Move := Position × Position

/-- The zero value `board.Move{}` of the Go move type. -/
def zeroMove : Move := (⟨0, 0⟩, ⟨0, 0⟩)

abbrev Board := Int → Int → Char

def emptyBoard : Board := fun _ _ => emptyCell

def inRangeI (r c : Int) : Bool :=
  decide (0 ≤ r) && decide (r < 19) && decide (0 ≤ c) && decide (c < 19)

def getCell (b : Board) (r c : Int) : Char :=
  if inRangeI r c then b r c else emptyCell

def setCell (b : Board) (r c : Int) (v : Char) : Board :=
  if inRangeI r c then (fun r' c' => if r' = r ∧ c' = c then v else b r' c') else b

/-- `ApplyMove` of `board.go`: writes the player's rune into one cell when the
second position is the sentinel `(-1,-1)`, else into both cells; unchecked. -/
def ApplyMove (b : Board) (move : Move) (player : Char) : Board :=
  if move.2.row = -1 ∧ move.2.col = -1 then
    setCell b move.1.row move.1.col player
  else
    setCell (setCell b move.1.row move.1.col player) move.2.row move.2.col player

/-- The four scan directions of `board.go`. -/
def directions : List (Int × Int) := [(0, 1), (1, 0), (1, 1), (1, -1)]

/-- The board indices `0..18` as the Go loops' `int` counters. -/
def intRange19 : List Int :=
  [0, 1, 2, 3, 4, 5, 6, 7, 8, 9, 10, 11, 12, 13, 14, 15, 16, 17, 18]

/-- The inner counting loop of `CheckWin`: starting count 1 at `(r,c)`, walk
steps `1..5` in direction `(dr,dc)` and stop at the first step that leaves the
board or a cell not owned by `player` (Go's `break` = `takeWhile`). -/
def countRun (b : Board) (r c dr dc : Int) (player : Char) : Nat :=
  1 + (((List.range 5).map (fun s => (s : Int) + 1)).takeWhile
        (fun step =>
          inRangeI (r + dr * step) (c + dc * step) &&
          (getCell b (r + dr * step) (c + dc * step) == player))).length

/-- `CheckWin` of `board.go`: some cell owned by `player` starts a run of at
least 6 in one of the four directions (early `return true` = `List.any`). -/
def CheckWin (b : Board) (player : Char) : Bool :=
  intRange19.any fun r =>
    intRange19.any fun c =>
      (getCell b r c == player) &&
      directions.any fun d =>
        decide (winLength ≤ countRun b r c d.1 d.2 player)

/-- `IsValidMove` of `board.go`: distinct, in range, and both cells empty. -/
def IsValidMove (b : Board) (p1 p2 : Position) : Bool :=
  if p1 = p2 then false
  else
    inRangeI p1.row p1.col && inRangeI p2.row p2.col &&
    (getCell b p1.row p1.col == emptyCell) &&
    (getCell b p2.row p2.col == emptyCell)

/-- `SwitchPlayer` of `board.go`. -/
def SwitchPlayer (player : Char) : Char :=
  if player == 'B' then 'W' else 'B'

/-- Count the cells of the 19×19 grid holding `v` (the loops of
`GetCurrentPlayer` / `countStones`). -/
def countCells (b : Board) (v : Char) : Nat :=
  ((intRange19.map fun r =>
    (intRange19.filter fun c => getCell b r c == v).length)).sum

/-- `GetCurrentPlayer` of `board.go`: equal stone counts ⇒ Black moves. -/
def GetCurrentPlayer (b : Board) : Char :=
  if countCells b 'B' = countCells b 'W' then 'B' else 'W'

/-- Forward half of `chainInfo`'s walk: the number of consecutive cells owned
by `player` strictly after `(r,c)` in direction `(dr,dc)`.  The Go loop is
unbounded but can take at most 18 in-range steps on a 19×19 board, so a
18-step `takeWhile` is exact. -/
def forwardRun (b : Board) (r c dr dc : Int) (player : Char) : Nat :=
  (((List.range 18).map (fun s => (s : Int) + 1)).takeWhile
    (fun step =>
      inRangeI (r + dr * step) (c + dc * step) &&
      (getCell b (r + dr * step) (c + dc * step) == player))).length

/-- Blockedness of one end of a chain in `chainInfo`: the first cell past the
run is off the board (blocked) or occupied by a non-empty rune (blocked);
an empty cell leaves the end open. -/
def blockedEnd (b : Board) (r c dr dc : Int) (run : Nat) : Bool :=
  let s : Int := (run : Int) + 1
  if inRangeI (r + dr * s) (c + dc * s) then
    !(getCell b (r + dr * s) (c + dc * s) == emptyCell)
  else true

/-- `chainInfo` of `board.go`: total chain length through `(r,c)` along
`(dr,dc)` plus blockedness of the backward (`blockedA`) and forward
(`blockedB`) ends. -/
def chainInfo (b : Board) (r c dr dc : Int) (player : Char) :
    Nat × Bool × Bool :=
  let f := forwardRun b r c dr dc player
  let g := forwardRun b r c (-dr) (-dc) player
  (1 + f + g, blockedEnd b r c (-dr) (-dc) g, blockedEnd b r c dr dc f)

/-- `WeightedChainScore` of `board.go`, verbatim. -/
def WeightedChainScore (length : Nat) (blockedA blockedB : Bool) : Int :=
  if length ≥ 6 then 999999
  else
    let openEnds : Nat := (if !blockedA then 1 else 0) + (if !blockedB then 1 else 0)
    if length = 5 then
      if openEnds = 2 then 100000 else if openEnds = 1 then 50000 else 20000
    else if length = 4 then
      if openEnds = 2 then 30000 else if openEnds = 1 then 15000 else 5000
    else if length = 3 then
      if openEnds = 2 then 7000 else if openEnds = 1 then 3000 else 1000
    else if length = 2 then
      if openEnds = 2 then 1500 else 500
    else if length = 1 then 50
    else 0

/-- The chain score of the occupant `cell` of `(r,c)` in direction `d`
(the `chainInfo` + `WeightedChainScore` step of `EvaluateBoard`). -/
def dirScore (b : Board) (r c : Int) (cell : Char) (d : Int × Int) : Int :=
  match chainInfo b r c d.1 d.2 cell with
  | (len, bA, bB) => WeightedChainScore len bA bB

/-- `EvaluateBoard` of `board.go`: one pass over all cells accumulating the
player's and the opponent's chain scores, returning their difference
(`float64` of an `int` difference — exact, modelled as `Int`). -/
def EvaluateBoard (b : Board) (player : Char) : Int :=
  let opponent := SwitchPlayer player
  let acc : Int × Int :=
    intRange19.foldl (fun acc r =>
      intRange19.foldl (fun acc c =>
        let cell := getCell b r c
        if cell = emptyCell then acc
        else
          directions.foldl (fun acc d =>
            let s := dirScore b r c cell d
            if cell = player then (acc.1 + s, acc.2)
            else if cell = opponent then (acc.1, acc.2 + s)
            else acc) acc) acc) ((0, 0) : Int × Int)
  acc.1 - acc.2

/-- `IsBoardEmpty` of `board.go`. -/
def IsBoardEmpty (b : Board) : Bool :=
  intRange19.all fun r =>
    intRange19.all fun c => getCell b r c == emptyCell

/-- The offsets `-radius .. radius` of the neighbourhood loops. -/
def offsets (radius : Int) : List Int :=
  (List.range (2 * radius.toNat + 1)).map fun k => (k : Int) - radius

/-- `GetPriorityPositions` of `board.go`.  On the empty board the fixed 5×5
window around the centre; otherwise every empty cell within Chebyshev
`radius` of an occupied cell.  Go collects the cells in a `map[Position]bool`
and extracts them in unspecified order; modelled as insertion-order traversal
with duplicates removed. -/
def GetPriorityPositions (b : Board) (radius : Int) : List Position :=
  if IsBoardEmpty b then
    (((offsets 2).flatMap fun dr =>
      (offsets 2).filterMap fun dc =>
        let nr := 9 + dr
        let nc := 9 + dc
        if inRangeI nr nc then some ⟨nr, nc⟩ else none)).dedup
  else
    ((intRange19.flatMap fun r =>
      intRange19.flatMap fun c =>
        if getCell b r c == emptyCell then []
        else
          (offsets radius).flatMap fun dr =>
            (offsets radius).filterMap fun dc =>
              let nr := r + dr
              let nc := c + dc
              if inRangeI nr nc && (getCell b nr nc == emptyCell) then
                some ⟨nr, nc⟩
              else none)).dedup

/-- Inner loop of `baseSmartMoves`: pair `p` with each later position,
returning as soon as 100 moves have accumulated. -/
def addPairsInner (p : Position) (qs : List Position) (moves : List Move) :
    List Move :=
  match qs with
  | [] => moves
  | q :: rest =>
    let moves' := moves ++ [(p, q)]
    if moves'.length ≥ 100 then moves' else addPairsInner p rest moves'

/-- Outer loop of `baseSmartMoves` over the position list. -/
def addPairsOuter (ps : List Position) (moves : List Move) : List Move :=
  match ps with
  | [] => moves
  | p :: rest =>
    let moves' := addPairsInner p rest moves
    if moves'.length ≥ 100 then moves' else addPairsOuter rest moves'

/-- `baseSmartMoves` of `board.go`: all pairs of priority positions in
enumeration order, capped at 100. -/
def baseSmartMoves (b : Board) : List Move :=
  addPairsOuter (GetPriorityPositions b 2) []

/-- `FindWinningMove` of `board.go`: the first base candidate whose
application scores at least the 2000-point threshold and wins immediately
(the `continue`/`return` loop is `List.find?`; the `2000.0` float threshold
compares an integer-valued evaluation, so `Int` comparison is exact). -/
def FindWinningMove (b : Board) (player : Char) : Option Move :=
  (baseSmartMoves b).find? fun m =>
    let testBoard := ApplyMove b m player
    !(decide (EvaluateBoard testBoard player < 2000)) &&
    CheckWin testBoard player

/-- `GenerateSmartMoves` of `board.go`: prepend each side's immediate winning
move (when found) to the base pairs, capped at 150. -/
def GenerateSmartMoves (b : Board) : List Move :=
  let moves :=
    (match FindWinningMove b 'B' with | some m => [m] | none => []) ++
    (match FindWinningMove b 'W' with | some m => [m] | none => []) ++
    baseSmartMoves b
  if moves.length > 150 then moves.take 150 else moves

/-- `GetWinner` of `board.go`. -/
def GetWinner (board : Board) : Char :=
  if CheckWin board 'B' then 'B'
  else if CheckWin board 'W' then 'W'
  else ' '

/-!
## MCTS, first revision of `mcts/mcts.go`

The imperative search walks a mutable node tree with parent pointers.  The
functional embedding fuses `treePolicy`, `expand`, `defaultPolicy` and
`backup` into one recursion `mctsIter` that rebuilds the tree on the way
back up; `backup`'s per-level inversion `result = 1.0 - result` appears as
the second component returned to the caller (the increment the parent must
add).  `rand.Intn n` is modelled by drawing the head of an explicit stream
of naturals reduced mod `n`; the wall-clock deadline is modelled as never
expiring (the claims fix only the iteration budget); the UCB child choice
with a positive exploration constant is float arithmetic and is modelled by
an abstract index-choice function `sel`, guarded mod the child count.  The
final pick `selectBestChild(root, 0)` compares the exact ratios
`wins/visits` (all children have `visits ≥ 1`), done here by
cross-multiplication.  Go dereferences `bestChild.move` unconditionally and
panics when the root has no children; the model returns `Option Move` with
`none` for that panic.
-/

inductive Node1 : Type where
  | mk : Board → Move → Char → Nat → Nat → List Move → List Node1 → Node1

def Node1.board : Node1 → Board
  | .mk b _ _ _ _ _ _ => b

def Node1.move : Node1 → Move
  | .mk _ m _ _ _ _ _ => m

def Node1.player : Node1 → Char
  | .mk _ _ p _ _ _ _ => p

def Node1.visits : Node1 → Nat
  | .mk _ _ _ v _ _ _ => v

def Node1.wins : Node1 → Nat
  | .mk _ _ _ _ w _ _ => w

def Node1.untriedMoves : Node1 → List Move
  | .mk _ _ _ _ _ u _ => u

def Node1.children : Node1 → List Node1
  | .mk _ _ _ _ _ _ c => c

instance : Inhabited Node1 :=
  ⟨.mk emptyBoard zeroMove 'B' 0 0 [] []⟩

/-- `isFirstMove` of `mcts/mcts.go` (first revision): the player has no
stones yet. -/
def isFirstMove (b : Board) (player : Char) : Bool :=
  countCells b player == 0

/-- `generateLegalMoves` of `mcts/mcts.go` (first revision): on the player's
first move, one single-stone move per empty cell (second position the
sentinel `(-1,-1)`), in row-major order; otherwise `GenerateSmartMoves`. -/
def generateLegalMoves (b : Board) (player : Char) : List Move :=
  if isFirstMove b player then
    intRange19.flatMap fun i =>
      (intRange19.filter fun j => getCell b i j == emptyCell).map
        fun j => ((⟨i, j⟩ : Position), (⟨-1, -1⟩ : Position))
  else GenerateSmartMoves b

/-- `applyMoveMC` of `mcts/mcts.go`: one stone for the sentinel, else both. -/
def applyMoveMC (b : Board) (move : Move) (player : Char) : Board :=
  if move.2.row = -1 ∧ move.2.col = -1 then
    setCell b move.1.row move.1.col player
  else ApplyMove b move player

/-- `defaultPolicy` of `mcts/mcts.go` (first revision), recursion on the
remaining rollout depth; returns the 0/1 outcome for `rootPlayer` and the
unconsumed random stream. -/
def defaultPolicyGo (rootPlayer : Char) :
    Nat → Board → Char → List Nat → Nat × List Nat
  | 0, b, _, rng =>
    (if EvaluateBoard b rootPlayer > 0 then 1 else 0, rng)
  | depth + 1, b, cur, rng =>
    if CheckWin b (SwitchPlayer cur) then
      (if rootPlayer == SwitchPlayer cur then 1 else 0, rng)
    else if CheckWin b cur then
      (if cur == rootPlayer then 1 else 0, rng)
    else
      let moves := generateLegalMoves b cur
      if moves.isEmpty then
        (if EvaluateBoard b rootPlayer > 0 then 1 else 0, rng)
      else
        let move := moves.getD (rng.headD 0 % moves.length) zeroMove
        defaultPolicyGo rootPlayer depth (applyMoveMC b move cur)
          (SwitchPlayer cur) rng.tail

/-- One MCTS iteration of the first revision (`treePolicy` + `expand` +
`defaultPolicy` + `backup` fused).  Returns the rebuilt node, the increment
the parent must add to its wins (`backup`'s inverted result), and the
unconsumed random stream.  `fuel` bounds the descent; any value larger than
the tree's depth reproduces the source exactly (the imperative walk always
terminates on the finite tree). -/
def mctsIter (sel : List Node1 → Nat) (maxDepth : Nat) (rootPlayer : Char) :
    Nat → Node1 → Char → List Nat → Node1 × Nat × List Nat
  | 0, node, _, rng => (node, 0, rng)
  | fuel + 1, node, cur, rng =>
    if CheckWin node.board (SwitchPlayer cur) || CheckWin node.board cur then
      -- treePolicy stops at a terminal node; rollout there, backup from it.
      let dp :=
        defaultPolicyGo rootPlayer maxDepth node.board
          (SwitchPlayer node.player) rng
      (.mk node.board node.move node.player (node.visits + 1)
        (node.wins + dp.1) node.untriedMoves node.children, 1 - dp.1, dp.2)
    else if !node.untriedMoves.isEmpty then
      -- expand: remove a random untried move, build the child, rollout
      -- from the child, backup from the child.
      let idx := rng.headD 0 % node.untriedMoves.length
      let move := node.untriedMoves.getD idx zeroMove
      let untried' := node.untriedMoves.eraseIdx idx
      let newBoard := applyMoveMC node.board move cur
      let childUntried := generateLegalMoves newBoard (SwitchPlayer cur)
      let dp :=
        defaultPolicyGo rootPlayer maxDepth newBoard (SwitchPlayer cur) rng.tail
      let child : Node1 := .mk newBoard move cur 1 dp.1 childUntried []
      (.mk node.board node.move node.player (node.visits + 1)
        (node.wins + (1 - dp.1)) untried' (node.children ++ [child]), dp.1, dp.2)
    else if !node.children.isEmpty then
      -- fully expanded: descend into the UCB-selected child.
      let i := sel node.children % node.children.length
      let child := node.children.getD i default
      let rec' :=
        mctsIter sel maxDepth rootPlayer fuel child (SwitchPlayer child.player) rng
      (.mk node.board node.move node.player (node.visits + 1)
        (node.wins + rec'.2.1) node.untriedMoves (node.children.set i rec'.1),
        1 - rec'.2.1, rec'.2.2)
    else
      -- no untried moves and no children: treePolicy returns the node.
      let dp :=
        defaultPolicyGo rootPlayer maxDepth node.board
          (SwitchPlayer node.player) rng
      (.mk node.board node.move node.player (node.visits + 1)
        (node.wins + dp.1) node.untriedMoves node.children, 1 - dp.1, dp.2)

/-- The iteration loop of `Search` (deadline modelled as never expiring). -/
def mctsLoop (sel : List Node1 → Nat) (maxDepth : Nat) (rootPlayer : Char)
    (fuel : Nat) : Nat → Node1 → List Nat → Node1 × List Nat
  | 0, root, rng => (root, rng)
  | k + 1, root, rng =>
    let it := mctsIter sel maxDepth rootPlayer fuel root rootPlayer rng
    mctsLoop sel maxDepth rootPlayer fuel k it.1 it.2.2

/-- `selectBestChild(node, 0)`: the first child attaining the strictly
greatest `wins/visits` ratio (exact cross-multiplied comparison; every
child has `visits ≥ 1`).  `none` models Go's nil result on no children. -/
def selectBestChildZero (children : List Node1) : Option Node1 :=
  children.foldl
    (fun best c =>
      match best with
      | none => some c
      | some b => if c.wins * b.visits > b.wins * c.visits then some c else best)
    none

/-- `Search` of `mcts/mcts.go` (first revision): build the root with its
legal moves, iterate, return the best child's move (`none` models the nil
dereference Go performs when the root never gained a child). -/
def mctsSearch (iterations fuel maxDepth : Nat) (rng : List Nat)
    (sel : List Node1 → Nat) (rootBoard : Board) (currentPlayer : Char) :
    Option Move :=
  let root : Node1 :=
    .mk rootBoard zeroMove currentPlayer 0 0
      (generateLegalMoves rootBoard currentPlayer) []
  let fin := mctsLoop sel maxDepth currentPlayer fuel iterations root rng
  (selectBestChildZero fin.1.children).map (·.move)

/-!
## MCTS, transposition-table revision with the turn-phase counter
(`src/unnamed/part_002`)

Only the data the end-of-budget selection reads is needed: `getBestMove`
inspects each child's `movesInTurn` phase counter, board, visit count and
move, plus the root's `player` and board.  The transposition-table side
update of `backpropagate` concerns no claim and is omitted from the path
model below.
-/

inductive Node2 : Type where
  | mk : Board → Move → Char → Nat → Nat → List Move → List Node2 → Nat → Node2

def Node2.board : Node2 → Board
  | .mk b _ _ _ _ _ _ _ => b

def Node2.move : Node2 → Move
  | .mk _ m _ _ _ _ _ _ => m

def Node2.player : Node2 → Char
  | .mk _ _ p _ _ _ _ _ => p

def Node2.visits : Node2 → Nat
  | .mk _ _ _ v _ _ _ _ => v

def Node2.wins : Node2 → Nat
  | .mk _ _ _ _ w _ _ _ => w

def Node2.untriedMoves : Node2 → List Move
  | .mk _ _ _ _ _ u _ _ => u

def Node2.children : Node2 → List Node2
  | .mk _ _ _ _ _ _ c _ => c

def Node2.movesInTurn : Node2 → Nat
  | .mk _ _ _ _ _ _ _ t => t

/-- The winning-child test of `getBestMove`: the child completed a full
turn (phase counter back to 0) and its board is a win for the root's
stored side. -/
def winChildPred (root : Node2) (c : Node2) : Bool :=
  c.movesInTurn == 0 && CheckWin c.board root.player

/-- `getBestMove` of the transposition revision: first a full-turn child
winning for `root.player` (first match returned), else the first child with
the strictly greatest visit count (`bestVisits` starts at `-1`), else the
first generated candidate, else the zero move. -/
def getBestMove (root : Node2) : Move :=
  match root.children.find? (winChildPred root) with
  | some c => c.move
  | none =>
    let best :=
      root.children.foldl
        (fun acc c =>
          if (c.visits : Int) > acc.2 then (some c, (c.visits : Int)) else acc)
        ((none : Option Node2), (-1 : Int))
    match best.1 with
    | some c => c.move
    | none =>
      match GenerateSmartMoves root.board with
      | [] => zeroMove
      | m :: _ => m

/-!
## Backpropagation path models

`backup` (first revision) and `backpropagate` (transposition revision) walk
the parent pointers from the just-expanded node to the root, mutating each
node's statistics.  The path is modelled as the list of `(visits, wins)`
statistics from the expanded node up to the root; rollout outcomes are the
floats `1.0`/`0.0` and `backup` only ever forms `1.0 - result`, so every
value that occurs is the integer `0` or `1`, and `Int` models the float
arithmetic exactly.
-/

structure NodeStats where
  visits : Nat
  wins : Int
deriving DecidableEq, Repr

/-- `backup` of `mcts/mcts.go` (first revision): add `result` at the current
node, then invert it (`result = 1.0 - result`) before moving to the parent. -/
def backup : List NodeStats → Int → List NodeStats
  | [], _ => []
  | s :: rest, result =>
    ⟨s.visits + 1, s.wins + result⟩ :: backup rest (1 - result)

/-- `backpropagate` of the transposition revision: add the same `result` at
every node on the path (the transposition-table side update is omitted:
no claim concerns it). -/
def backpropagate : List NodeStats → Int → List NodeStats
  | [], _ => []
  | s :: rest, result =>
    ⟨s.visits + 1, s.wins + result⟩ :: backpropagate rest result

/-!
## Specification-side definitions

`specChainScore` transcribes the score table of the specification (§4.3);
`playerChainSum` transcribes the specification's reading of the evaluator:
"the sum of these chain scores over the player's occupied cells in all 4
directions".  Both are compared against the source-translated
`WeightedChainScore` / `EvaluateBoard` above.
-/

/-- The chain-score table of the specification: saturating maximum for
length ≥ 6, then rows for lengths 5..1 by the number of open ends. -/
def specChainScore (length : Nat) (blockedA blockedB : Bool) : Int :=
  let openEnds : Nat :=
    (if blockedA then 0 else 1) + (if blockedB then 0 else 1)
  if 6 ≤ length then 999999
  else if length = 5 then
    if openEnds = 2 then 100000 else if openEnds = 1 then 50000 else 20000
  else if length = 4 then
    if openEnds = 2 then 30000 else if openEnds = 1 then 15000 else 5000
  else if length = 3 then
    if openEnds = 2 then 7000 else if openEnds = 1 then 3000 else 1000
  else if length = 2 then
    if openEnds = 2 then 1500 else 500
  else if length = 1 then 50
  else 0

/-- The specification's chain sum for one side: every occupied cell of the
player, all four directions, scored by chain length and blockedness. -/
def playerChainSum (b : Board) (p : Char) : Int :=
  (intRange19.map fun r =>
    ((intRange19.map fun c =>
      if getCell b r c ≠ emptyCell ∧ getCell b r c = p then
        (directions.map fun d => dirScore b r c p d).sum
      else 0)).sum).sum

/-!
## Concrete inputs used by counterexamples and witnesses
-/

/-- Read one cell of a 19-character row literal: `B`/`W` stones, anything
else empty. -/
def gridCell (row : String) (c : Int) : Char :=
  let ch := row.toList.getD c.toNat 'x'
  if ch = 'B' then 'B' else if ch = 'W' then 'W' else emptyCell

/-- A grid on which both players have six in a row. -/
def bothWinBoard : Board := fun r c =>
  if r = 0 ∧ 0 ≤ c ∧ c < 6 then 'B'
  else if r = 2 ∧ 0 ≤ c ∧ c < 6 then 'W'
  else emptyCell

/-- Rows of the `FindWinningMove` counterexample board: 179 Black and 179
White stones (so Black is to move), exactly three empty cells `(0,0)`,
`(9,4)`, `(9,10)`; Black holds the open-ended five `(9,5)..(9,9)`; White
holds a twelve-in-a-row on row 18, so every candidate completion for Black
evaluates far below the 2000-point threshold of `FindWinningMove`. -/
def fwmRow (r : Nat) : String :=
  match r with
  | 0 => ".BWWBBWWBBWWBBWWBBW"
  | 1 => "WWBBWWBBWWBBWWBBWWB"
  | 2 => "BBWBBBWWBBWWBBWWBBW"
  | 3 => "WWBBWWBBWWBBWWBBWWB"
  | 4 => "BBWWBBWWBBWWBBWWBBW"
  | 5 => "WWBBWWBBWWBBWWBBWWB"
  | 6 => "BBWWBBWWBBWBBBWWBBW"
  | 7 => "WWBBWWBBWWBBWWBBWWB"
  | 8 => "BBWWBBWWBBWWBBWWBBW"
  | 9 => "WWBB.BBBBB.BWWBBWWB"
  | 10 => "BBWWBBWWBBWWBBWWBBW"
  | 11 => "WWBBWWBBWWBBWWBBWWB"
  | 12 => "BBWWBBWWBBWWBBWWBBW"
  | 13 => "WWBBWWBBWWBBWWBBWWB"
  | 14 => "BBBWBBWWBBWWBBWWBBW"
  | 15 => "WWBBWWBBWWBBWWBBWWB"
  | 16 => "BBWWBBWWBBWWBBWWBBW"
  | 17 => "WWBBWWBBWWBBWWBBWWB"
  | _ => "WWWWWWWWWWWWBBWWBBW"

def fwmBoard : Board := fun r c => gridCell (fwmRow r.toNat) c

/-- The claim's premise at a horizontal witness location: five contiguous
Black stones with both end cells empty (a run of exactly five, both ends
open). -/
def blackOpenFiveAt (b : Board) (r c : Int) : Bool :=
  (getCell b r (c - 1) == emptyCell) &&
  (getCell b r c == 'B') && (getCell b r (c + 1) == 'B') &&
  (getCell b r (c + 2) == 'B') && (getCell b r (c + 3) == 'B') &&
  (getCell b r (c + 4) == 'B') &&
  (getCell b r (c + 5) == emptyCell)

/-- The sentinel single-stone move encoding. -/
def sentinelMove (m : Move) : Bool :=
  m.2.row == -1 && m.2.col == -1

/-- The amended shape of `Search`'s result: a valid two-stone move, or a
single-stone sentinel move whose first position is an in-range empty cell. -/
def c1AmendedOk (b : Board) (m : Move) : Bool :=
  IsValidMove b m.1 m.2 ||
  (sentinelMove m && inRangeI m.1.row m.1.col &&
    (getCell b m.1.row m.1.col == emptyCell))

/-- The original claim's shape of `Search`'s result: both positions in
range and both cells empty in the input board. -/
def c1ClaimOk (b : Board) (m : Move) : Bool :=
  inRangeI m.1.row m.1.col && (getCell b m.1.row m.1.col == emptyCell) &&
  inRangeI m.2.row m.2.col && (getCell b m.2.row m.2.col == emptyCell)

/-!
## Theorems

Helper lemmas come first, then one theorem per claim (with its witness or
counterexample where required).
-/

theorem any_congrOn {α : Type} (l : List α) (f g : α → Bool)
    (h : ∀ x ∈ l, f x = g x) : l.any f = l.any g := by
  induction l with
  | nil => rfl
  | cons a t ih =>
    simp only [List.any_cons]
    rw [h a (List.mem_cons_self a t), ih fun x hx => h x (List.mem_cons_of_mem a hx)]

theorem takeWhile_congrOn {α : Type} (l : List α) (f g : α → Bool)
    (h : ∀ x ∈ l, f x = g x) : l.takeWhile f = l.takeWhile g := by
  induction l with
  | nil => rfl
  | cons a t ih =>
    simp only [List.takeWhile_cons]
    rw [h a (List.mem_cons_self a t)]
    cases g a with
    | false => rfl
    | true =>
      simp only [if_pos]
      rw [ih fun x hx => h x (List.mem_cons_of_mem a hx)]

theorem switchPlayer_ne (p : Char) : SwitchPlayer p ≠ p := by
  unfold SwitchPlayer
  by_cases h : p = 'B'
  · subst h; decide
  · rw [if_neg (by simpa using h)]
    exact fun hc => h hc.symm

theorem switchPlayer_cases (p : Char) :
    SwitchPlayer p = 'B' ∨ SwitchPlayer p = 'W' := by
  unfold SwitchPlayer
  by_cases h : p = 'B'
  · subst h; right; rfl
  · rw [if_neg (by simpa using h)]; left; rfl

theorem getCell_setCell_eqTest (b : Board) (r c : Int) (v q : Char)
    (hqv : q ≠ v) (hold : getCell b r c ≠ q) (r' c' : Int) :
    (getCell (setCell b r c v) r' c' == q) = (getCell b r' c' == q) := by
  unfold setCell
  by_cases hin : inRangeI r c = true
  · rw [if_pos hin]
    unfold getCell
    by_cases hin' : inRangeI r' c' = true
    · rw [if_pos hin', if_pos hin']
      change ((if r' = r ∧ c' = c then v else b r' c') == q) = (b r' c' == q)
      by_cases heq : r' = r ∧ c' = c
      · rw [if_pos heq]
        obtain ⟨h1, h2⟩ := heq
        subst h1; subst h2
        have hb : b r' c' ≠ q := by
          intro hc
          exact hold (by unfold getCell; rw [if_pos hin]; exact hc)
        rw [beq_eq_false_iff_ne.mpr (fun hc => hqv hc.symm)]
        exact (beq_eq_false_iff_ne.mpr hb).symm
      · rw [if_neg heq]
    · rw [if_neg hin', if_neg hin']
  · rw [if_neg hin]

theorem countRun_congr (b b' : Board) (q : Char)
    (h : ∀ r c : Int, (getCell b r c == q) = (getCell b' r c == q))
    (r c dr dc : Int) : countRun b r c dr dc q = countRun b' r c dr dc q := by
  unfold countRun
  rw [takeWhile_congrOn]
  intro x _
  rw [h]

theorem checkWin_congr (b b' : Board) (q : Char)
    (h : ∀ r c : Int, (getCell b r c == q) = (getCell b' r c == q)) :
    CheckWin b q = CheckWin b' q := by
  unfold CheckWin
  rw [any_congrOn]
  intro r _
  rw [any_congrOn]
  intro c _
  rw [h]
  congr 1
  rw [any_congrOn]
  intro d _
  rw [countRun_congr b b' q h]

theorem isValidMove_parts (b : Board) (p1 p2 : Position)
    (h : IsValidMove b p1 p2 = true) :
    p1 ≠ p2 ∧ inRangeI p1.row p1.col = true ∧ inRangeI p2.row p2.col = true ∧
    getCell b p1.row p1.col = emptyCell ∧ getCell b p2.row p2.col = emptyCell := by
  unfold IsValidMove at h
  by_cases hee : p1 = p2
  · rw [if_pos hee] at h; exact absurd h (by simp)
  · rw [if_neg hee] at h
    simp only [Bool.and_eq_true, beq_iff_eq] at h
    exact ⟨hee, h.1.1.1, h.1.1.2, h.1.2, h.2⟩

/-- A valid move by `p` never changes the opponent's win status. -/
theorem checkWin_applyMove_opponent (b : Board) (m : Move) (p : Char)
    (hv : IsValidMove b m.1 m.2 = true) :
    CheckWin (ApplyMove b m p) (SwitchPlayer p) = CheckWin b (SwitchPlayer p) := by
  obtain ⟨hne, hr1, hr2, he1, he2⟩ := isValidMove_parts b m.1 m.2 hv
  have hq : SwitchPlayer p ≠ p := switchPlayer_ne p
  have hqe : SwitchPlayer p ≠ emptyCell := by
    rcases switchPlayer_cases p with h | h <;> rw [h] <;> decide
  have hsent : ¬(m.2.row = -1 ∧ m.2.col = -1) := by
    rintro ⟨h1, _⟩
    unfold inRangeI at hr2
    simp only [h1, Bool.and_eq_true, decide_eq_true_eq] at hr2
    omega
  unfold ApplyMove
  rw [if_neg hsent]
  have step1 : ∀ r' c' : Int,
      (getCell (setCell b m.1.row m.1.col p) r' c' == SwitchPlayer p) =
      (getCell b r' c' == SwitchPlayer p) := by
    intro r' c'
    exact getCell_setCell_eqTest b m.1.row m.1.col p (SwitchPlayer p) hq
      (by rw [he1]; exact fun hc => hqe hc.symm) r' c'
  have step2 : ∀ r' c' : Int,
      (getCell (setCell (setCell b m.1.row m.1.col p) m.2.row m.2.col p) r' c'
        == SwitchPlayer p) =
      (getCell (setCell b m.1.row m.1.col p) r' c' == SwitchPlayer p) := by
    intro r' c'
    apply getCell_setCell_eqTest _ _ _ _ _ hq
    intro hc
    have h1 := step1 m.2.row m.2.col
    rw [hc, he2, beq_self_eq_true] at h1
    exact hqe (beq_iff_eq.mp h1.symm).symm
  calc CheckWin (setCell (setCell b m.1.row m.1.col p) m.2.row m.2.col p)
        (SwitchPlayer p)
      = CheckWin (setCell b m.1.row m.1.col p) (SwitchPlayer p) :=
        checkWin_congr _ _ _ step2
    _ = CheckWin b (SwitchPlayer p) := checkWin_congr _ _ _ step1

/-- C9: `SwitchPlayer` is an involution on the player values. -/
theorem c9_switchPlayer_involution (p : Char) (h : p = 'B' ∨ p = 'W') :
    SwitchPlayer (SwitchPlayer p) = p := by
  rcases h with rfl | rfl <;> decide

theorem c9_switchPlayer_involution_witness :
    SwitchPlayer (SwitchPlayer 'B') = 'B' :=
  c9_switchPlayer_involution 'B' (Or.inl rfl)

/-- C10: `GetWinner` returns `'B'` whenever Black has six in a row (Black
takes precedence), `'W'` when only White does, and `' '` exactly when
neither player has six in a row. -/
theorem c10_getWinner_spec (b : Board) :
    (CheckWin b 'B' = true → GetWinner b = 'B') ∧
    (CheckWin b 'B' = false ∧ CheckWin b 'W' = true → GetWinner b = 'W') ∧
    (GetWinner b = ' ' ↔ CheckWin b 'B' = false ∧ CheckWin b 'W' = false) := by
  unfold GetWinner
  refine ⟨fun h => by rw [if_pos h], fun h => by rw [if_neg (by simp [h.1]), if_pos h.2], ?_⟩
  constructor
  · intro h
    by_cases hb : CheckWin b 'B' = true
    · rw [if_pos hb] at h; exact absurd h (by decide)
    · rw [if_neg hb] at h
      by_cases hw : CheckWin b 'W' = true
      · rw [if_pos hw] at h; exact absurd h (by decide)
      · exact ⟨by simpa using hb, by simpa using hw⟩
  · rintro ⟨hb, hw⟩
    rw [if_neg (by simp [hb]), if_neg (by simp [hw])]

set_option maxRecDepth 100000 in
/-- C3 fails as stated: a grid exists on which `CheckWin` holds for both
players simultaneously. -/
theorem c3_counterexample :
    CheckWin bothWinBoard 'B' = true ∧ CheckWin bothWinBoard 'W' = true := by
  constructor
  · decide
  · decide

/-- C3 amended: over arbitrary grids both players can satisfy `CheckWin`
at once; the invariant that holds is that a valid move by one player never
changes the opponent's `CheckWin` status, so simultaneous wins can only
descend from a position where the opponent had already won. -/
theorem c3_checkWin_move_invariant (b : Board) (m : Move) (p : Char) :
    IsValidMove b m.1 m.2 = false ∨
    CheckWin (ApplyMove b m p) (SwitchPlayer p) = CheckWin b (SwitchPlayer p) := by
  by_cases hv : IsValidMove b m.1 m.2 = true
  · exact Or.inr (checkWin_applyMove_opponent b m p hv)
  · exact Or.inl (by simpa using hv)

/-- C6: both walks increment the visit count by one at every node of the
path; `backpropagate` adds the same rollout outcome at every node, while
`backup` adds the outcome at the expanded node and the inverted outcome
`1 - result` at every other step (alternating with depth). -/
theorem c6_backprop_path_stats (path : List NodeStats) (result : Int)
    (i : Fin path.length) :
    (backpropagate path result).getD i ⟨0, 0⟩ =
      ⟨(path.getD i ⟨0, 0⟩).visits + 1, (path.getD i ⟨0, 0⟩).wins + result⟩ ∧
    (backup path result).getD i ⟨0, 0⟩ =
      ⟨(path.getD i ⟨0, 0⟩).visits + 1,
        (path.getD i ⟨0, 0⟩).wins +
          (if (i : Nat) % 2 = 0 then result else 1 - result)⟩ := by
  induction path generalizing result with
  | nil => exact absurd i.isLt (by simp)
  | cons s rest ih =>
    rcases i with ⟨iv, hi⟩
    cases iv with
    | zero => simp [backpropagate, backup]
    | succ j =>
      have hj : j < rest.length := by simpa using hi
      have h1 := ih result ⟨j, hj⟩
      have h2 := ih (1 - result) ⟨j, hj⟩
      constructor
      · simpa [backpropagate] using h1.1
      · have hpar : (j + 1) % 2 = 0 ↔ ¬(j % 2 = 0) := by omega
        by_cases hje : j % 2 = 0
        · have := h2.2
          rw [if_pos hje] at this
          simpa [backup, if_neg (by omega : ¬((j + 1) % 2 = 0))] using this
        · have := h2.2
          rw [if_neg hje] at this
          simpa [backup, if_pos (by omega : (j + 1) % 2 = 0),
            sub_sub_cancel] using this

/-- C6 fails as stated for `backup`: with outcome `1.0` on a two-node path,
the second node (the parent) receives `0`, not the rollout outcome `1`. -/
theorem c6_counterexample :
    (backup [⟨0, 0⟩, ⟨0, 0⟩] 1).getD 1 ⟨0, 0⟩ = ⟨1, 0⟩ ∧
    (backup [⟨0, 0⟩, ⟨0, 0⟩] 1).getD 1 ⟨0, 0⟩ ≠ ⟨1, 1⟩ := by
  constructor
  · rfl
  · decide

theorem foldl_pair_split {α : Type} (step : (Int × Int) → α → (Int × Int))
    (F G : α → Int) (h : ∀ acc x, step acc x = (acc.1 + F x, acc.2 + G x)) :
    ∀ (l : List α) (init : Int × Int),
    l.foldl step init = (init.1 + (l.map F).sum, init.2 + (l.map G).sum) := by
  intro l
  induction l with
  | nil => intro init; simp
  | cons x xs ih =>
    intro init
    rw [List.foldl_cons, ih, h]
    simp [add_assoc]

theorem evaluateBoard_eq_sub (b : Board) (p : Char) :
    EvaluateBoard b p = playerChainSum b p - playerChainSum b (SwitchPlayer p) := by
  have hne : SwitchPlayer p ≠ p := switchPlayer_ne p
  have hinner : ∀ (r c : Int) (acc : Int × Int),
      (directions.foldl (fun acc d =>
        if getCell b r c = p then
          (acc.1 + dirScore b r c (getCell b r c) d, acc.2)
        else if getCell b r c = SwitchPlayer p then
          (acc.1, acc.2 + dirScore b r c (getCell b r c) d)
        else acc) acc)
      = (acc.1 + (if getCell b r c = p then
            (directions.map fun d => dirScore b r c p d).sum else 0),
         acc.2 + (if getCell b r c = SwitchPlayer p then
            (directions.map fun d => dirScore b r c (SwitchPlayer p) d).sum
          else 0)) := by
    intro r c acc
    by_cases h1 : getCell b r c = p
    · rw [foldl_pair_split _
        (fun d => dirScore b r c (getCell b r c) d)
        (fun _ => 0)
        (fun acc d => by rw [if_pos h1]; simp)]
      rw [if_pos h1, if_neg (fun hc => hne ((h1.symm.trans hc).symm))]
      simp [h1]
    · by_cases h2 : getCell b r c = SwitchPlayer p
      · rw [foldl_pair_split _ (fun _ => 0)
          (fun d => dirScore b r c (getCell b r c) d)
          (fun acc d => by rw [if_neg h1, if_pos h2]; simp)]
        rw [if_neg h1, if_pos h2]
        simp [h2]
      · rw [foldl_pair_split _ (fun _ => 0) (fun _ => 0)
          (fun acc d => by rw [if_neg h1, if_neg h2]; simp)]
        rw [if_neg h1, if_neg h2]
        simp
  have hmid : ∀ (acc : Int × Int) (r : Int),
      (intRange19.foldl (fun acc c =>
        if getCell b r c = emptyCell then acc
        else directions.foldl (fun acc d =>
          if getCell b r c = p then
            (acc.1 + dirScore b r c (getCell b r c) d, acc.2)
          else if getCell b r c = SwitchPlayer p then
            (acc.1, acc.2 + dirScore b r c (getCell b r c) d)
          else acc) acc) acc)
      = (acc.1 + (intRange19.map fun c =>
            if getCell b r c ≠ emptyCell ∧ getCell b r c = p then
              (directions.map fun d => dirScore b r c p d).sum
            else 0).sum,
         acc.2 + (intRange19.map fun c =>
            if getCell b r c ≠ emptyCell ∧ getCell b r c = SwitchPlayer p then
              (directions.map fun d => dirScore b r c (SwitchPlayer p) d).sum
            else 0).sum) := by
    intro acc r
    apply foldl_pair_split
    intro acc c
    by_cases hc : getCell b r c = emptyCell
    · rw [if_pos hc, if_neg (fun h => h.1 hc), if_neg (fun h => h.1 hc)]
      simp
    · rw [if_neg hc, hinner r c acc]
      simp [hc]
  have houter :
      (intRange19.foldl (fun acc r =>
        intRange19.foldl (fun acc c =>
          if getCell b r c = emptyCell then acc
          else directions.foldl (fun acc d =>
            if getCell b r c = p then
              (acc.1 + dirScore b r c (getCell b r c) d, acc.2)
            else if getCell b r c = SwitchPlayer p then
              (acc.1, acc.2 + dirScore b r c (getCell b r c) d)
            else acc) acc) acc) ((0, 0) : Int × Int))
      = (playerChainSum b p, playerChainSum b (SwitchPlayer p)) := by
    rw [foldl_pair_split _
      (fun r : Int => (intRange19.map fun c =>
        if getCell b r c ≠ emptyCell ∧ getCell b r c = p then
          (directions.map fun d => dirScore b r c p d).sum
        else 0).sum)
      (fun r : Int => (intRange19.map fun c =>
        if getCell b r c ≠ emptyCell ∧ getCell b r c = SwitchPlayer p then
          (directions.map fun d => dirScore b r c (SwitchPlayer p) d).sum
        else 0).sum)
      hmid]
    unfold playerChainSum
    simp
  show (intRange19.foldl (fun acc r =>
      intRange19.foldl (fun acc c =>
        if getCell b r c = emptyCell then acc
        else directions.foldl (fun acc d =>
          if getCell b r c = p then
            (acc.1 + dirScore b r c (getCell b r c) d, acc.2)
          else if getCell b r c = SwitchPlayer p then
            (acc.1, acc.2 + dirScore b r c (getCell b r c) d)
          else acc) acc) acc) ((0, 0) : Int × Int)).1 -
    (intRange19.foldl (fun acc r =>
      intRange19.foldl (fun acc c =>
        if getCell b r c = emptyCell then acc
        else directions.foldl (fun acc d =>
          if getCell b r c = p then
            (acc.1 + dirScore b r c (getCell b r c) d, acc.2)
          else if getCell b r c = SwitchPlayer p then
            (acc.1, acc.2 + dirScore b r c (getCell b r c) d)
          else acc) acc) acc) ((0, 0) : Int × Int)).2 =
    playerChainSum b p - playerChainSum b (SwitchPlayer p)
  rw [houter]

theorem wcs_eq_spec (l : Nat) (a b : Bool) :
    WeightedChainScore (l + 1) a b = specChainScore (l + 1) a b := by
  rcases l with _ | _ | _ | _ | _ | n
  · cases a <;> cases b <;> rfl
  · cases a <;> cases b <;> rfl
  · cases a <;> cases b <;> rfl
  · cases a <;> cases b <;> rfl
  · cases a <;> cases b <;> rfl
  · unfold WeightedChainScore specChainScore
    rw [if_pos (by omega), if_pos (by omega)]

/-- C5: `WeightedChainScore` realises exactly the specification's score
table on every nonempty chain length, and `EvaluateBoard` is the
difference of the player's and the opponent's chain sums. -/
theorem c5_claim :
    (∀ (l : Nat) (a b : Bool),
      WeightedChainScore (l + 1) a b = specChainScore (l + 1) a b) ∧
    (∀ (bd : Board) (p : Char),
      EvaluateBoard bd p =
        playerChainSum bd p - playerChainSum bd (SwitchPlayer p)) :=
  ⟨wcs_eq_spec, evaluateBoard_eq_sub⟩

/-- C4: the evaluation is antisymmetric between the two players — on every
board Black's score is the negation of White's (the claim's property in
fact holds, contrary to the spec's warning). -/
theorem c4_claim (b : Board) :
    EvaluateBoard b 'B' = -EvaluateBoard b 'W' ∧
    EvaluateBoard b 'W' = -EvaluateBoard b 'B' := by
  have hB := evaluateBoard_eq_sub b 'B'
  have hW := evaluateBoard_eq_sub b 'W'
  rw [show SwitchPlayer 'B' = 'W' from rfl] at hB
  rw [show SwitchPlayer 'W' = 'B' from rfl] at hW
  constructor <;> omega

/-- C4, the spec's asymmetry warning refuted: there is no board and player
on which the evaluation fails to be the negation of the opponent's. -/
theorem c4_cex :
    (∃ (b : Board) (p : Char), (p = 'B' ∨ p = 'W') ∧
      EvaluateBoard b p ≠ -EvaluateBoard b (SwitchPlayer p)) ↔ False := by
  apply iff_false_intro
  rintro ⟨b, p, hp, hne⟩
  apply hne
  have hB := evaluateBoard_eq_sub b 'B'
  have hW := evaluateBoard_eq_sub b 'W'
  rw [show SwitchPlayer 'B' = 'W' from rfl] at hB
  rw [show SwitchPlayer 'W' = 'B' from rfl] at hW
  rcases hp with rfl | rfl
  · rw [show SwitchPlayer 'B' = 'W' from rfl]
    omega
  · rw [show SwitchPlayer 'W' = 'B' from rfl]
    omega

theorem mem_intRange19 (r : Int) : r ∈ intRange19 ↔ 0 ≤ r ∧ r < 19 := by
  simp [intRange19]
  omega

theorem isBoardEmpty_getCell (b : Board) (h : IsBoardEmpty b = true)
    (r c : Int) : getCell b r c = emptyCell := by
  by_cases hin : inRangeI r c = true
  · have hr : r ∈ intRange19 := by
      rw [mem_intRange19]
      unfold inRangeI at hin
      simp only [Bool.and_eq_true, decide_eq_true_eq] at hin
      exact ⟨hin.1.1.1, hin.1.1.2⟩
    have hc : c ∈ intRange19 := by
      rw [mem_intRange19]
      unfold inRangeI at hin
      simp only [Bool.and_eq_true, decide_eq_true_eq] at hin
      exact ⟨hin.1.2, hin.2⟩
    unfold IsBoardEmpty at h
    rw [List.all_eq_true] at h
    have h2 := h r hr
    rw [List.all_eq_true] at h2
    exact beq_iff_eq.mp (h2 c hc)
  · unfold getCell
    rw [if_neg hin]

theorem mem_getPriorityPositions (b : Board) (radius : Int) (q : Position)
    (h : q ∈ GetPriorityPositions b radius) :
    inRangeI q.row q.col = true ∧ getCell b q.row q.col = emptyCell := by
  unfold GetPriorityPositions at h
  by_cases hb : IsBoardEmpty b = true
  · rw [if_pos hb, List.mem_dedup, List.mem_flatMap] at h
    obtain ⟨dr, _, h⟩ := h
    rw [List.mem_filterMap] at h
    obtain ⟨dc, _, h⟩ := h
    by_cases hg : inRangeI (9 + dr) (9 + dc) = true
    · rw [if_pos hg] at h
      obtain rfl := Option.some_injective _ h
      exact ⟨hg, isBoardEmpty_getCell b hb _ _⟩
    · rw [if_neg hg] at h
      exact absurd h (by simp)
  · rw [if_neg hb, List.mem_dedup, List.mem_flatMap] at h
    obtain ⟨r, _, h⟩ := h
    rw [List.mem_flatMap] at h
    obtain ⟨c, _, h⟩ := h
    by_cases he : (getCell b r c == emptyCell) = true
    · rw [if_pos he] at h
      exact absurd h (by simp)
    · rw [if_neg he, List.mem_flatMap] at h
      obtain ⟨dr, _, h⟩ := h
      rw [List.mem_filterMap] at h
      obtain ⟨dc, _, h⟩ := h
      by_cases hg : (inRangeI (r + dr) (c + dc) &&
          (getCell b (r + dr) (c + dc) == emptyCell)) = true
      · rw [if_pos hg] at h
        obtain rfl := Option.some_injective _ h
        simp only [Bool.and_eq_true] at hg
        exact ⟨hg.1, beq_iff_eq.mp hg.2⟩
      · rw [if_neg hg] at h
        exact absurd h (by simp)

theorem nodup_getPriorityPositions (b : Board) (radius : Int) :
    (GetPriorityPositions b radius).Nodup := by
  unfold GetPriorityPositions
  by_cases hb : IsBoardEmpty b = true
  · rw [if_pos hb]; exact List.nodup_dedup _
  · rw [if_neg hb]; exact List.nodup_dedup _

theorem mem_addPairsInner (p : Position) :
    ∀ (qs : List Position) (moves : List Move) (m : Move),
    m ∈ addPairsInner p qs moves → m ∈ moves ∨ ∃ q ∈ qs, m = (p, q) := by
  intro qs
  induction qs with
  | nil => intro moves m h; exact Or.inl h
  | cons q rest ih =>
    intro moves m h
    unfold addPairsInner at h
    by_cases hlen : (moves ++ [(p, q)]).length ≥ 100
    · rw [if_pos hlen] at h
      rcases List.mem_append.mp h with h | h
      · exact Or.inl h
      · exact Or.inr ⟨q, List.mem_cons_self q rest, List.mem_singleton.mp h⟩
    · rw [if_neg hlen] at h
      rcases ih (moves ++ [(p, q)]) m h with h | ⟨q', hq', rfl⟩
      · rcases List.mem_append.mp h with h | h
        · exact Or.inl h
        · exact Or.inr ⟨q, List.mem_cons_self q rest, List.mem_singleton.mp h⟩
      · exact Or.inr ⟨q', List.mem_cons_of_mem q hq', rfl⟩

theorem mem_addPairsOuter :
    ∀ (ps : List Position) (moves : List Move) (m : Move), ps.Nodup →
    m ∈ addPairsOuter ps moves →
    m ∈ moves ∨ ∃ x y, m = (x, y) ∧ x ∈ ps ∧ y ∈ ps ∧ x ≠ y := by
  intro ps
  induction ps with
  | nil => intro moves m _ h; exact Or.inl h
  | cons p rest ih =>
    intro moves m hnd h
    have hpnotin : p ∉ rest := (List.nodup_cons.mp hnd).1
    have hndrest : rest.Nodup := (List.nodup_cons.mp hnd).2
    unfold addPairsOuter at h
    have hinner : ∀ m', m' ∈ addPairsInner p rest moves →
        m' ∈ moves ∨ ∃ x y, m' = (x, y) ∧ x ∈ p :: rest ∧ y ∈ p :: rest ∧ x ≠ y := by
      intro m' hm'
      rcases mem_addPairsInner p rest moves m' hm' with h' | ⟨q, hq, rfl⟩
      · exact Or.inl h'
      · exact Or.inr ⟨p, q, rfl, List.mem_cons_self p rest,
          List.mem_cons_of_mem p hq, fun hc => hpnotin (hc ▸ hq)⟩
    by_cases hlen : (addPairsInner p rest moves).length ≥ 100
    · rw [if_pos hlen] at h
      exact hinner m h
    · rw [if_neg hlen] at h
      rcases ih (addPairsInner p rest moves) m hndrest h with h' | ⟨x, y, rfl, hx, hy, hxy⟩
      · exact hinner m h'
      · exact Or.inr ⟨x, y, rfl, List.mem_cons_of_mem p hx,
          List.mem_cons_of_mem p hy, hxy⟩

theorem mem_baseSmartMoves_valid (b : Board) (m : Move)
    (h : m ∈ baseSmartMoves b) : IsValidMove b m.1 m.2 = true := by
  unfold baseSmartMoves at h
  rcases mem_addPairsOuter (GetPriorityPositions b 2) [] m
      (nodup_getPriorityPositions b 2) h with h' | ⟨x, y, rfl, hx, hy, hxy⟩
  · exact absurd h' (List.not_mem_nil m)
  · obtain ⟨hxr, hxe⟩ := mem_getPriorityPositions b 2 x hx
    obtain ⟨hyr, hye⟩ := mem_getPriorityPositions b 2 y hy
    unfold IsValidMove
    rw [if_neg hxy]
    simp only [Bool.and_eq_true, beq_iff_eq]
    exact ⟨⟨⟨hxr, hyr⟩, hxe⟩, hye⟩

theorem findWinningMove_mem (b : Board) (p : Char) (m : Move)
    (h : FindWinningMove b p = some m) : m ∈ baseSmartMoves b :=
  List.mem_of_find?_eq_some h

theorem mem_generateSmartMoves_valid (b : Board) (m : Move)
    (h : m ∈ GenerateSmartMoves b) : IsValidMove b m.1 m.2 = true := by
  unfold GenerateSmartMoves at h
  have hfull : ∀ m', m' ∈
      ((match FindWinningMove b 'B' with | some m => [m] | none => []) ++
       (match FindWinningMove b 'W' with | some m => [m] | none => []) ++
       baseSmartMoves b) → IsValidMove b m'.1 m'.2 = true := by
    intro m' hm'
    rcases List.mem_append.mp hm' with hm' | hm'
    · rcases List.mem_append.mp hm' with hm' | hm'
      · rcases hB : FindWinningMove b 'B' with _ | mB
        · rw [hB] at hm'; exact absurd hm' (List.not_mem_nil m')
        · rw [hB] at hm'
          obtain rfl := List.mem_singleton.mp hm'
          exact mem_baseSmartMoves_valid b m' (findWinningMove_mem b 'B' m' hB)
      · rcases hW : FindWinningMove b 'W' with _ | mW
        · rw [hW] at hm'; exact absurd hm' (List.not_mem_nil m')
        · rw [hW] at hm'
          obtain rfl := List.mem_singleton.mp hm'
          exact mem_baseSmartMoves_valid b m' (findWinningMove_mem b 'W' m' hW)
    · exact mem_baseSmartMoves_valid b m' hm'
  by_cases hlen : ((match FindWinningMove b 'B' with | some m => [m] | none => []) ++
       (match FindWinningMove b 'W' with | some m => [m] | none => []) ++
       baseSmartMoves b).length > 150
  · rw [if_pos hlen] at h
    exact hfull m (List.take_subset 150 _ h)
  · rw [if_neg hlen] at h
    exact hfull m h

/-- C8: every move produced by `GenerateSmartMoves` (base pairs and
prepended winning moves alike) satisfies `IsValidMove` on that board. -/
theorem c8_smart_moves_valid (b : Board) :
    (GenerateSmartMoves b).all (fun m => IsValidMove b m.1 m.2) = true := by
  rw [List.all_eq_true]
  intro m hm
  exact mem_generateSmartMoves_valid b m hm

theorem foldVisits_result (l : List Node2) :
    ∀ (acc : Option Node2 × Int),
    (l.foldl (fun acc c =>
      if (c.visits : Int) > acc.2 then (some c, (c.visits : Int)) else acc) acc) = acc ∨
    ∃ c ∈ l, (l.foldl (fun acc c =>
      if (c.visits : Int) > acc.2 then (some c, (c.visits : Int)) else acc) acc)
        = (some c, (c.visits : Int)) := by
  induction l with
  | nil => intro acc; exact Or.inl rfl
  | cons x xs ih =>
    intro acc
    rw [List.foldl_cons]
    by_cases hx : (x.visits : Int) > acc.2
    · rw [if_pos hx]
      rcases ih (some x, (x.visits : Int)) with h | ⟨c, hc, h⟩
      · exact Or.inr ⟨x, List.mem_cons_self x xs, h⟩
      · exact Or.inr ⟨c, List.mem_cons_of_mem x hc, h⟩
    · rw [if_neg hx]
      rcases ih acc with h | ⟨c, hc, h⟩
      · exact Or.inl h
      · exact Or.inr ⟨c, List.mem_cons_of_mem x hc, h⟩

theorem foldVisits_ge (l : List Node2) :
    ∀ (acc : Option Node2 × Int),
    acc.2 ≤ (l.foldl (fun acc c =>
      if (c.visits : Int) > acc.2 then (some c, (c.visits : Int)) else acc) acc).2 ∧
    ∀ c ∈ l, (c.visits : Int) ≤ (l.foldl (fun acc c =>
      if (c.visits : Int) > acc.2 then (some c, (c.visits : Int)) else acc) acc).2 := by
  induction l with
  | nil => intro acc; exact ⟨le_refl _, by intro c hc; exact absurd hc (List.not_mem_nil c)⟩
  | cons x xs ih =>
    intro acc
    rw [List.foldl_cons]
    by_cases hx : (x.visits : Int) > acc.2
    · rw [if_pos hx]
      obtain ⟨h1, h2⟩ := ih (some x, (x.visits : Int))
      refine ⟨le_of_lt (lt_of_lt_of_le hx h1), ?_⟩
      intro c hc
      rcases List.mem_cons.mp hc with rfl | hc
      · exact h1
      · exact h2 c hc
    · rw [if_neg hx]
      obtain ⟨h1, h2⟩ := ih acc
      refine ⟨h1, ?_⟩
      intro c hc
      rcases List.mem_cons.mp hc with rfl | hc
      · exact le_trans (le_of_not_lt hx) h1
      · exact h2 c hc

/-- C2: `getBestMove` returns a full-turn winning child's move when one
exists, else the move of a most-visited child, else the first generated
candidate (or the zero move when there are no candidates). -/
theorem c2_best_move_selection (root : Node2) :
    ((∃ c ∈ root.children, winChildPred root c = true) →
      ∃ c ∈ root.children, winChildPred root c = true ∧ getBestMove root = c.move) ∧
    ((∀ c ∈ root.children, winChildPred root c = false) → root.children ≠ [] →
      ∃ c ∈ root.children, getBestMove root = c.move ∧
        ∀ c' ∈ root.children, c'.visits ≤ c.visits) ∧
    (root.children = [] →
      getBestMove root = (GenerateSmartMoves root.board).headD zeroMove) := by
  refine ⟨?_, ?_, ?_⟩
  · rintro ⟨c, hc, hpred⟩
    have hfind : (root.children.find? (winChildPred root)).isSome := by
      rw [List.find?_isSome]
      exact ⟨c, hc, hpred⟩
    rcases hf : root.children.find? (winChildPred root) with _ | cf
    · rw [hf] at hfind; exact absurd hfind (by simp)
    · refine ⟨cf, List.mem_of_find?_eq_some hf, List.find?_some hf, ?_⟩
      unfold getBestMove
      rw [hf]
  · intro hnone hne
    have hf : root.children.find? (winChildPred root) = none := by
      rw [List.find?_eq_none]
      intro c hc
      rw [hnone c hc]
      simp
    rcases foldVisits_result root.children ((none : Option Node2), (-1 : Int))
      with h | ⟨c, hc, h⟩
    · exfalso
      rcases hch : root.children with _ | ⟨x, xs⟩
      · exact hne hch
      · have h2 := (foldVisits_ge root.children
          ((none : Option Node2), (-1 : Int))).2 x
          (by rw [hch]; exact List.mem_cons_self x xs)
        rw [h] at h2
        simp at h2
        omega
    · refine ⟨c, hc, ?_, ?_⟩
      · unfold getBestMove
        rw [hf]
        simp only [h]
      · intro c' hc'
        have h2 := (foldVisits_ge root.children
          ((none : Option Node2), (-1 : Int))).2 c' hc'
        rw [h] at h2
        simp at h2
        exact_mod_cast h2
  · intro hempty
    unfold getBestMove
    rw [hempty]
    rcases hg : GenerateSmartMoves root.board with _ | ⟨m, ms⟩ <;> simp [hg]

/-- C7, sound half: whenever `FindWinningMove` does return a move, applying
that move does produce six in a row for the player. -/
theorem c7_findWinningMove_sound (b : Board) (p : Char) :
    (FindWinningMove b p).all (fun m => CheckWin (ApplyMove b m p) p) = true := by
  rcases h : FindWinningMove b p with _ | m
  · rfl
  · have hp := List.find?_some h
    simp only [Option.all_some]
    simp only [Bool.and_eq_true] at hp
    exact hp.2

set_option maxRecDepth 2000000 in
set_option maxHeartbeats 16000000 in
theorem fwmPriority :
    GetPriorityPositions fwmBoard 2 =
      [⟨0, 0⟩, ⟨9, 4⟩, ⟨9, 10⟩] := by
  decide

theorem fwmBase :
    baseSmartMoves fwmBoard =
      [((⟨0, 0⟩ : Position), (⟨9, 4⟩ : Position)),
       ((⟨0, 0⟩ : Position), (⟨9, 10⟩ : Position)),
       ((⟨9, 4⟩ : Position), (⟨9, 10⟩ : Position))] := by
  unfold baseSmartMoves
  rw [fwmPriority]
  decide

set_option maxRecDepth 2000000 in
set_option maxHeartbeats 16000000 in
theorem fwmSumB1 :
    playerChainSum (ApplyMove fwmBoard
      ((⟨0, 0⟩ : Position), (⟨9, 4⟩ : Position)) 'B') 'B' = 8315392 := by
  decide

set_option maxRecDepth 2000000 in
set_option maxHeartbeats 16000000 in
theorem fwmSumW1 :
    playerChainSum (ApplyMove fwmBoard
      ((⟨0, 0⟩ : Position), (⟨9, 4⟩ : Position)) 'B') 'W' = 12253738 := by
  decide

set_option maxRecDepth 2000000 in
set_option maxHeartbeats 16000000 in
theorem fwmSumB2 :
    playerChainSum (ApplyMove fwmBoard
      ((⟨0, 0⟩ : Position), (⟨9, 10⟩ : Position)) 'B') 'B' = 7311393 := by
  decide

set_option maxRecDepth 2000000 in
set_option maxHeartbeats 16000000 in
theorem fwmSumW2 :
    playerChainSum (ApplyMove fwmBoard
      ((⟨0, 0⟩ : Position), (⟨9, 10⟩ : Position)) 'B') 'W' = 12253738 := by
  decide

set_option maxRecDepth 2000000 in
set_option maxHeartbeats 16000000 in
theorem fwmSumB3 :
    playerChainSum (ApplyMove fwmBoard
      ((⟨9, 4⟩ : Position), (⟨9, 10⟩ : Position)) 'B') 'B' = 10316190 := by
  decide

set_option maxRecDepth 2000000 in
set_option maxHeartbeats 16000000 in
theorem fwmSumW3 :
    playerChainSum (ApplyMove fwmBoard
      ((⟨9, 4⟩ : Position), (⟨9, 10⟩ : Position)) 'B') 'W' = 12253738 := by
  decide

theorem fwmEval1 :
    EvaluateBoard (ApplyMove fwmBoard
      ((⟨0, 0⟩ : Position), (⟨9, 4⟩ : Position)) 'B') 'B' < 2000 := by
  rw [evaluateBoard_eq_sub]
  show playerChainSum (ApplyMove fwmBoard
      ((⟨0, 0⟩ : Position), (⟨9, 4⟩ : Position)) 'B') 'B' -
    playerChainSum (ApplyMove fwmBoard
      ((⟨0, 0⟩ : Position), (⟨9, 4⟩ : Position)) 'B') 'W' < 2000
  rw [fwmSumB1, fwmSumW1]
  decide

theorem fwmEval2 :
    EvaluateBoard (ApplyMove fwmBoard
      ((⟨0, 0⟩ : Position), (⟨9, 10⟩ : Position)) 'B') 'B' < 2000 := by
  rw [evaluateBoard_eq_sub]
  show playerChainSum (ApplyMove fwmBoard
      ((⟨0, 0⟩ : Position), (⟨9, 10⟩ : Position)) 'B') 'B' -
    playerChainSum (ApplyMove fwmBoard
      ((⟨0, 0⟩ : Position), (⟨9, 10⟩ : Position)) 'B') 'W' < 2000
  rw [fwmSumB2, fwmSumW2]
  decide

theorem fwmEval3 :
    EvaluateBoard (ApplyMove fwmBoard
      ((⟨9, 4⟩ : Position), (⟨9, 10⟩ : Position)) 'B') 'B' < 2000 := by
  rw [evaluateBoard_eq_sub]
  show playerChainSum (ApplyMove fwmBoard
      ((⟨9, 4⟩ : Position), (⟨9, 10⟩ : Position)) 'B') 'B' -
    playerChainSum (ApplyMove fwmBoard
      ((⟨9, 4⟩ : Position), (⟨9, 10⟩ : Position)) 'B') 'W' < 2000
  rw [fwmSumB3, fwmSumW3]
  decide

set_option maxRecDepth 2000000 in
set_option maxHeartbeats 16000000 in
/-- C7 fails as stated: on `fwmBoard` Black, to move, has the open-ended
five `(9,5)..(9,9)` (completing at `(9,4)` and `(9,10)` wins outright), yet
`FindWinningMove` returns no move: every candidate completion evaluates
below the 2000-point threshold, so the win test is never reached. -/
theorem c7_counterexample :
    blackOpenFiveAt fwmBoard 9 5 = true ∧
    GetCurrentPlayer fwmBoard = 'B' ∧
    CheckWin (ApplyMove fwmBoard
      ((⟨9, 4⟩ : Position), (⟨9, 10⟩ : Position)) 'B') 'B' = true ∧
    FindWinningMove fwmBoard 'B' = none := by
  refine ⟨by decide, by decide, by decide, ?_⟩
  unfold FindWinningMove
  rw [fwmBase, List.find?_eq_none]
  intro m hm
  simp only [List.mem_cons, List.not_mem_nil, or_false] at hm
  rcases hm with rfl | rfl | rfl
  · show ¬((!(decide (EvaluateBoard (ApplyMove fwmBoard
        ((⟨0, 0⟩ : Position), (⟨9, 4⟩ : Position)) 'B') 'B' < 2000)) &&
      CheckWin (ApplyMove fwmBoard
        ((⟨0, 0⟩ : Position), (⟨9, 4⟩ : Position)) 'B') 'B') = true)
    rw [decide_eq_true fwmEval1]
    simp only [Bool.not_true, Bool.false_and]
    exact Bool.false_ne_true
  · show ¬((!(decide (EvaluateBoard (ApplyMove fwmBoard
        ((⟨0, 0⟩ : Position), (⟨9, 10⟩ : Position)) 'B') 'B' < 2000)) &&
      CheckWin (ApplyMove fwmBoard
        ((⟨0, 0⟩ : Position), (⟨9, 10⟩ : Position)) 'B') 'B') = true)
    rw [decide_eq_true fwmEval2]
    simp only [Bool.not_true, Bool.false_and]
    exact Bool.false_ne_true
  · show ¬((!(decide (EvaluateBoard (ApplyMove fwmBoard
        ((⟨9, 4⟩ : Position), (⟨9, 10⟩ : Position)) 'B') 'B' < 2000)) &&
      CheckWin (ApplyMove fwmBoard
        ((⟨9, 4⟩ : Position), (⟨9, 10⟩ : Position)) 'B') 'B') = true)
    rw [decide_eq_true fwmEval3]
    simp only [Bool.not_true, Bool.false_and]
    exact Bool.false_ne_true

theorem mem_generateLegalMoves_ok (b : Board) (p : Char) (m : Move)
    (h : m ∈ generateLegalMoves b p) : c1AmendedOk b m = true := by
  unfold generateLegalMoves at h
  by_cases hf : isFirstMove b p = true
  · rw [if_pos hf, List.mem_flatMap] at h
    obtain ⟨i, hi, h⟩ := h
    rw [List.mem_map] at h
    obtain ⟨j, hj, rfl⟩ := h
    rw [List.mem_filter] at hj
    obtain ⟨hj, hje⟩ := hj
    unfold c1AmendedOk sentinelMove
    have hir : inRangeI i j = true := by
      unfold inRangeI
      rw [mem_intRange19] at hi hj
      simp only [Bool.and_eq_true, decide_eq_true_eq]
      exact ⟨⟨⟨hi.1, hi.2⟩, hj.1⟩, hj.2⟩
    rw [Bool.or_eq_true]
    right
    simp only [Bool.and_eq_true]
    exact ⟨⟨by decide, hir⟩, hje⟩
  · rw [if_neg hf] at h
    unfold c1AmendedOk
    rw [Bool.or_eq_true]
    exact Or.inl (mem_generateSmartMoves_valid b m h)

theorem mctsIter_move (sel : List Node1 → Nat) (md : Nat) (rp : Char) :
    ∀ (fuel : Nat) (node : Node1) (cur : Char) (rng : List Nat),
    (mctsIter sel md rp fuel node cur rng).1.move = node.move := by
  intro fuel node cur rng
  cases fuel with
  | zero => rfl
  | succ n =>
    rcases node with ⟨nb, nm, np, nv, nw, nu, nch⟩
    unfold mctsIter
    split
    · rfl
    · split
      · rfl
      · split
        · rfl
        · rfl

theorem mctsIter_tree (sel : List Node1 → Nat) (md : Nat) (rp : Char) :
    ∀ (fuel : Nat) (node : Node1) (cur : Char) (rng : List Nat),
    (∀ c' ∈ (mctsIter sel md rp fuel node cur rng).1.children,
      c'.move ∈ node.children.map Node1.move ∨ c'.move ∈ node.untriedMoves) ∧
    (mctsIter sel md rp fuel node cur rng).1.untriedMoves ⊆ node.untriedMoves := by
  intro fuel
  induction fuel with
  | zero =>
    intro node cur rng
    exact ⟨fun c' hc' => Or.inl (List.mem_map_of_mem Node1.move hc'),
      fun x hx => hx⟩
  | succ n ih =>
    intro node cur rng
    rcases node with ⟨nb, nm, np, nv, nw, nu, nch⟩
    unfold mctsIter
    split
    · exact ⟨fun c' hc' => Or.inl (List.mem_map_of_mem Node1.move hc'),
        fun x hx => hx⟩
    · split
      · -- expand branch
        rename_i hterm hunt
        try simp only [Node1.untriedMoves] at hunt
        have hne : nu ≠ [] := by
          intro hu
          rw [hu] at hunt
          exact absurd hunt (by decide)
        have hlen : 0 < nu.length := List.length_pos.mpr hne
        have hidx : rng.headD 0 % nu.length < nu.length := Nat.mod_lt _ hlen
        constructor
        · intro c' hc'
          try simp only [Node1.children] at hc'
          rcases List.mem_append.mp hc' with hc' | hc'
          · exact Or.inl (List.mem_map_of_mem Node1.move hc')
          · obtain rfl := List.mem_singleton.mp hc'
            right
            show nu.getD (rng.headD 0 % nu.length) zeroMove ∈ nu
            rw [List.getD_eq_getElem nu zeroMove hidx]
            exact List.getElem_mem hidx
        · intro x hx
          try simp only [Node1.untriedMoves] at hx
          exact List.eraseIdx_subset nu _ hx
      · split
        · -- descend branch
          rename_i hterm hunt hch
          try simp only [Node1.children] at hch
          have hne : nch ≠ [] := by
            intro hu
            rw [hu] at hch
            exact absurd hch (by decide)
          have hlen : 0 < nch.length := List.length_pos.mpr hne
          have hidx : sel nch % nch.length < nch.length := Nat.mod_lt _ hlen
          constructor
          · intro c' hc'
            try simp only [Node1.children] at hc'
            rcases List.mem_or_eq_of_mem_set hc' with hc' | rfl
            · exact Or.inl (List.mem_map_of_mem Node1.move hc')
            · left
              rw [mctsIter_move sel md rp n (nch.getD (sel nch % nch.length) default)
                (SwitchPlayer (nch.getD (sel nch % nch.length) default).player) rng]
              rw [List.getD_eq_getElem nch default hidx]
              exact List.mem_map_of_mem Node1.move (List.getElem_mem hidx)
          · intro x hx
            try simp only [Node1.untriedMoves] at hx
            exact hx
        · exact ⟨fun c' hc' => Or.inl (List.mem_map_of_mem Node1.move hc'),
            fun x hx => hx⟩

theorem mctsLoop_tree (sel : List Node1 → Nat) (md : Nat) (rp : Char)
    (fuel : Nat) :
    ∀ (k : Nat) (root : Node1) (rng : List Nat),
    (∀ c' ∈ (mctsLoop sel md rp fuel k root rng).1.children,
      c'.move ∈ root.children.map Node1.move ∨ c'.move ∈ root.untriedMoves) ∧
    (mctsLoop sel md rp fuel k root rng).1.untriedMoves ⊆ root.untriedMoves := by
  intro k
  induction k with
  | zero =>
    intro root rng
    exact ⟨fun c' hc' => Or.inl (List.mem_map_of_mem Node1.move hc'),
      fun x hx => hx⟩
  | succ n ih =>
    intro root rng
    unfold mctsLoop
    obtain ⟨hit1, hit2⟩ := mctsIter_tree sel md rp fuel root rp rng
    obtain ⟨hl1, hl2⟩ := ih (mctsIter sel md rp fuel root rp rng).1
      (mctsIter sel md rp fuel root rp rng).2.2
    constructor
    · intro c' hc'
      rcases hl1 c' hc' with hm | hm
      · rw [List.mem_map] at hm
        obtain ⟨c'', hc'', heq⟩ := hm
        rcases hit1 c'' hc'' with hm' | hm'
        · rw [← heq]; exact Or.inl hm'
        · rw [← heq]; exact Or.inr hm'
      · exact Or.inr (hit2 hm)
    · exact fun x hx => hit2 (hl2 hx)

theorem selectBestChildZero_mem :
    ∀ (l : List Node1) (acc : Option Node1) (c : Node1),
    l.foldl (fun best c =>
      match best with
      | none => some c
      | some b => if c.wins * b.visits > b.wins * c.visits then some c else best)
      acc = some c →
    acc = some c ∨ c ∈ l := by
  intro l
  induction l with
  | nil => intro acc c h; exact Or.inl h
  | cons x xs ih =>
    intro acc c h
    rw [List.foldl_cons] at h
    rcases ih _ c h with h' | h'
    · cases acc with
      | none =>
        simp only [] at h'
        obtain rfl := Option.some_injective _ h'
        exact Or.inr (List.mem_cons_self x xs)
      | some b =>
        simp only [] at h'
        by_cases hw : x.wins * b.visits > b.wins * x.visits
        · rw [if_pos hw] at h'
          obtain rfl := Option.some_injective _ h'
          exact Or.inr (List.mem_cons_self x xs)
        · rw [if_neg hw] at h'
          exact Or.inl h'
    · exact Or.inr (List.mem_cons_of_mem x h')

/-- C1 amended: every move `Search` returns is either a valid two-stone
move (both positions distinct, in range and empty in the input board) or a
single-stone sentinel move whose first position is an in-range empty cell
(the opening encoding, produced whenever the moving side has no stones
yet); `none` models the nil dereference when the root has no children. -/
theorem c1_search_move_shape (iters fuel md : Nat) (rng : List Nat)
    (sel : List Node1 → Nat) (b : Board) (p : Char) :
    (mctsSearch iters fuel md rng sel b p).all (fun m => c1AmendedOk b m) = true := by
  obtain ⟨h1, _⟩ := mctsLoop_tree sel md p fuel iters
    (Node1.mk b zeroMove p 0 0 (generateLegalMoves b p) []) rng
  show (Option.map (fun x => x.move)
    (selectBestChildZero
      (mctsLoop sel md p fuel iters
        (Node1.mk b zeroMove p 0 0 (generateLegalMoves b p) []) rng).1.children)).all
    (fun m => c1AmendedOk b m) = true
  rcases hsel : selectBestChildZero
      (mctsLoop sel md p fuel iters
        (Node1.mk b zeroMove p 0 0 (generateLegalMoves b p) []) rng).1.children
    with _ | c
  · rfl
  · show c1AmendedOk b c.move = true
    rcases selectBestChildZero_mem _ _ _ hsel with h' | h'
    · exact absurd h' (by simp)
    · rcases h1 c h' with hm | hm
      · simp only [Node1.children, List.map_nil] at hm
        exact absurd hm (List.not_mem_nil _)
      · simp only [Node1.untriedMoves] at hm
        exact mem_generateLegalMoves_ok b p c.move hm

set_option maxRecDepth 1000000 in
set_option maxHeartbeats 4000000 in
/-- C1 fails as stated: on the empty board (one iteration, zero rollout
depth, zero random stream, any selector) `Search` returns the single-stone
opening move `((0,0), (-1,-1))`, whose second position is not in
`[0,18] × [0,18]` and hence violates the claimed shape. -/
theorem c1_counterexample :
    mctsSearch 1 2 0 [] (fun _ => 0) emptyBoard 'B' =
      some ((⟨0, 0⟩ : Position), (⟨-1, -1⟩ : Position)) ∧
    c1ClaimOk emptyBoard ((⟨0, 0⟩ : Position), (⟨-1, -1⟩ : Position)) = false := by
  constructor
  · decide
  · decide
